import Mathlib

/-!
Shallow embedding of the WordPress Jobs monitor (src/monitor.js, with the
second variant src/unnamed/part_000 agreeing on all logic embedded here).

Modelling conventions:
- JS strings are sequences of characters; the JS string operations used by
  the program (trim, startsWith, template concatenation, equality/truthiness)
  are embedded on the character list of a Lean String, so every definition
  evaluates by the kernel.
- cheerio query results that the extraction loop reads from one listing
  container are captured in a Container structure: the text and href of the
  first element matching each selector list.  An absent href attribute is
  modelled as the empty string: in the source the href only flows into
  truthiness tests (where undefined and the empty string coincide) and into
  uses guarded by those tests.
- The I/O boundaries (file system, HTTP fetch, mail transport) are explicit
  parameters: the persisted file is a FileState, a failed fetch is the none
  case of the fetched page, mail delivery succeeding is a Boolean.
-/

/-- JS String.prototype.startsWith: the pattern's characters are a prefix of
the receiver's characters. -/
def jsStartsWith (s p : String) : Bool :=
  p.data.isPrefixOf s.data

/-- Drop leading and trailing whitespace from a character list. -/
def trimChars (l : List Char) : List Char :=
  ((l.dropWhile Char.isWhitespace).reverse.dropWhile Char.isWhitespace).reverse

/-- JS String.prototype.trim: drop leading and trailing whitespace
characters. -/
def jsTrim (s : String) : String :=
  ⟨trimChars s.data⟩

/-- JS `a || b` on strings: the left operand unless it is empty (falsy). -/
def orDefault (s d : String) : String :=
  if s = "" then d else s

/-- One element pushed onto the jobs array (monitor.js lines 78-85). -/
structure JobRecord where
  id : String
  title : String
  link : String
  company : String
  location : String
  datePosted : String
  deriving DecidableEq, Repr

/-- The JS Set of seen job ids, represented by its insertion-order element
list; every Set produced by the program is duplicate-free. -/
abbrev SeenSet := List String

/-- JS seenJobs.has(id) (monitor.js line 171). -/
def seenHas (s : SeenSet) (x : String) : Bool :=
  s.contains x

/-- JS seenJobs.add(id): appends the element unless already present,
keeping insertion order (monitor.js line 183). -/
def seenAdd (s : SeenSet) (x : String) : SeenSet :=
  if s.contains x then s else s ++ [x]

/-- JS `new Set(arr)` (monitor.js line 21): elements in first-occurrence
order. -/
def setFromArray (arr : List String) : SeenSet :=
  arr.foldl seenAdd []

/-- The state of STORAGE_FILE as observed by loadSeenJobs (monitor.js lines
18-25): missing, unreadable, readable but rejected by JSON.parse, or a JSON
array of strings. -/
inductive FileState where
  | missing
  | unreadable
  | invalidJson
  | validArray (arr : List String)
  deriving DecidableEq, Repr

/-- monitor.js lines 18-25: read and parse STORAGE_FILE inside try/catch;
any failure (missing or unreadable file, invalid JSON) is caught and yields
an empty Set.  Total function: no error escapes to the caller. -/
def loadSeenJobs : FileState → SeenSet
  | FileState.validArray arr => setFromArray arr
  | _ => []

/-- monitor.js lines 27-29: the file is overwritten with
JSON.stringify([...seenJobs]); the serialized array is the spread of the
Set, i.e. its insertion-order element list. -/
def saveSeenJobs (s : SeenSet) : List String :=
  s

/-- monitor.js line 77: normalize a link to the full URL, prepending the
site origin unless the link starts with "http". -/
def normalizeLink (link : String) : String :=
  if jsStartsWith link "http" then link else "https://jobs.wordpress.net" ++ link

/-- The text and href attribute of an anchor-like query result.  A missing
href attribute is modelled as "". -/
structure RawLink where
  text : String
  href : String
  deriving DecidableEq, Repr

/-- What the extraction loop body (monitor.js lines 48-89) reads from one
listing container: the first match of the primary title/link selector list
(line 56), the first a[href*="/job/"] fallback (line 65), the first
fallback-label text (line 68), and the three auxiliary field texts
(lines 72-74).  Texts are stored as returned by .text(), untrimmed; the
code applies trim where the source does. -/
structure Container where
  titleLink : Option RawLink
  anyJobLink : Option RawLink
  fallbackTitle : String
  company : String
  location : String
  datePosted : String
  deriving DecidableEq, Repr

/-- monitor.js lines 52-70: the title/link pair after the two resolution
steps (primary selector list, then the any-job-link fallback taken when the
link is still falsy), before the emission guard of line 76. -/
def resolvedPair (c : Container) : String × String :=
  let p :=
    match c.titleLink with
    | some tl => (jsTrim tl.text, tl.href)
    | none => ("", "")
  if p.2 = "" then
    match c.anyJobLink with
    | some al =>
        (orDefault (jsTrim al.text) (jsTrim c.fallbackTitle), al.href)
    | none => p
  else p

/-- monitor.js lines 76-88: emit a record when both resolved title and
resolved link are truthy (non-empty strings); the link is normalized and
used for both id and link; auxiliary fields fall back to sentinels. -/
def extractContainer (c : Container) : Option JobRecord :=
  let title := (resolvedPair c).1
  let link := (resolvedPair c).2
  if title ≠ "" ∧ link ≠ "" then
    let fullLink := normalizeLink link
    some { id := fullLink, title := title, link := fullLink,
           company := orDefault (jsTrim c.company) "Not specified",
           location := orDefault (jsTrim c.location) "Remote/Not specified",
           datePosted := orDefault (jsTrim c.datePosted) "N/A" }
  else
    none

/-- monitor.js lines 44-91: process every matched container in document
order, pushing the records that pass the emission guard. -/
def extractJobs (cs : List Container) : List JobRecord :=
  cs.filterMap extractContainer

/-- monitor.js lines 31-96: fetchJobs returns the extraction of the fetched
page; when the fetch (or anything in the try block) throws, the catch of
lines 92-95 logs and returns the empty array.  The fetched page is the
document-ordered list of containers matched by the listing selectors. -/
def fetchJobs : Option (List Container) → List JobRecord
  | none => []
  | some cs => extractJobs cs

/-- monitor.js line 171: the Differ, currentJobs.filter(job =>
!seenJobs.has(job.id)). -/
def differ (jobs : List JobRecord) (seen : SeenSet) : List JobRecord :=
  jobs.filter (fun job => !seenHas seen job.id)

/-- Modelled from the spec: the Differ contract in its own words — return
the subsequence of jobs whose id is not a member of the seen set, preserving
original order.  Used only to compare with the implementation differ. -/
def differSpec : List JobRecord → SeenSet → List JobRecord
  | [], _ => []
  | job :: rest, seen =>
      if job.id ∈ seen then differSpec rest seen else job :: differSpec rest seen

/-- The externally visible outcome of one run of main: whether mail delivery
was attempted, whether it succeeded, and the array written to STORAGE_FILE
(none when the file is not written). -/
structure RunOutcome where
  mailAttempted : Bool
  mailDelivered : Bool
  savedFile : Option (List String)
  deriving DecidableEq, Repr

/-- monitor.js lines 146-189, after the environment-variable check: load the
seen set, fetch, return early on zero jobs, filter new jobs, attempt mail
(the catch of lines 179-181 swallows a delivery failure), then add every new
id and save.  mailOk says whether the transport delivers. -/
def mainRun (file : FileState) (fetched : Option (List Container)) (mailOk : Bool) :
    RunOutcome :=
  let seenJobs := loadSeenJobs file
  let currentJobs := fetchJobs fetched
  if currentJobs = [] then
    { mailAttempted := false, mailDelivered := false, savedFile := none }
  else
    let newJobs := differ currentJobs seenJobs
    if newJobs = [] then
      { mailAttempted := false, mailDelivered := false, savedFile := none }
    else
      let updated := newJobs.foldl (fun s job => seenAdd s job.id) seenJobs
      { mailAttempted := true, mailDelivered := mailOk,
        savedFile := some (saveSeenJobs updated) }

/-- A concrete container carrying one well-formed listing (title "Support
Engineer", relative link "/job/123"), used by witnesses. -/
def sampleContainer : Container :=
  { titleLink := some { text := " Support Engineer ", href := "/job/123" },
    anyJobLink := none, fallbackTitle := "", company := "Acme",
    location := "", datePosted := "" }

/-- A concrete container whose resolved link is the whitespace-only string
" ": an anchor of class job_listing-clickbox with href equal to a single
space.  JS treats " " as truthy, so the guard of line 76 passes. -/
def spaceLinkContainer : Container :=
  { titleLink := some { text := "Support Engineer", href := " " },
    anyJobLink := none, fallbackTitle := "", company := "",
    location := "", datePosted := "" }

/-- The record extracted from sampleContainer, used by witnesses. -/
def sampleRecord : JobRecord :=
  { id := "https://jobs.wordpress.net/job/123", title := "Support Engineer",
    link := "https://jobs.wordpress.net/job/123", company := "Acme",
    location := "Remote/Not specified", datePosted := "N/A" }

/-! Helper lemmas about the Set embedding. -/

theorem contains_iff_mem (l : List String) (x : String) :
    l.contains x = true ↔ x ∈ l := by
  simp [List.contains]

theorem mem_seenAdd (s : SeenSet) (x y : String) :
    y ∈ seenAdd s x ↔ y ∈ s ∨ y = x := by
  unfold seenAdd
  split
  · rename_i hc
    rw [contains_iff_mem] at hc
    constructor
    · exact Or.inl
    · rintro (hy | rfl)
      · exact hy
      · exact hc
  · simp

theorem mem_foldl_seenAdd (l : List String) (s : SeenSet) (y : String) :
    y ∈ l.foldl seenAdd s ↔ y ∈ s ∨ y ∈ l := by
  induction l generalizing s with
  | nil => simp
  | cons a t ih =>
      rw [List.foldl_cons, ih, mem_seenAdd, List.mem_cons]
      tauto

theorem mem_setFromArray (arr : List String) (y : String) :
    y ∈ setFromArray arr ↔ y ∈ arr := by
  unfold setFromArray
  rw [mem_foldl_seenAdd]
  simp

theorem nodup_seenAdd (s : SeenSet) (x : String) (h : s.Nodup) :
    (seenAdd s x).Nodup := by
  unfold seenAdd
  split
  · exact h
  · rename_i hc
    rw [List.nodup_append]
    refine ⟨h, List.nodup_singleton x, ?_⟩
    intro a ha hx
    rw [List.mem_singleton] at hx
    subst hx
    exact hc ((contains_iff_mem s a).mpr ha)

theorem nodup_foldl_seenAdd (l : List String) (s : SeenSet) (h : s.Nodup) :
    (l.foldl seenAdd s).Nodup := by
  induction l generalizing s with
  | nil => exact h
  | cons a t ih => exact ih (seenAdd s a) (nodup_seenAdd s a h)

theorem nodup_setFromArray (arr : List String) : (setFromArray arr).Nodup :=
  nodup_foldl_seenAdd arr [] List.nodup_nil

theorem nodup_loadSeenJobs (file : FileState) : (loadSeenJobs file).Nodup := by
  cases file <;> simp [loadSeenJobs, nodup_setFromArray]

theorem mem_foldl_seenAdd_ids (l : List JobRecord) (s : SeenSet) (y : String) :
    y ∈ l.foldl (fun acc job => seenAdd acc job.id) s ↔
      y ∈ s ∨ y ∈ l.map JobRecord.id := by
  rw [← List.foldl_map JobRecord.id seenAdd l s, mem_foldl_seenAdd]

theorem nodup_foldl_seenAdd_ids (l : List JobRecord) (s : SeenSet) (h : s.Nodup) :
    (l.foldl (fun acc job => seenAdd acc job.id) s).Nodup := by
  rw [← List.foldl_map JobRecord.id seenAdd l s]
  exact nodup_foldl_seenAdd _ s h

/-! Helper lemmas about the string-operation embedding. -/

theorem dropWhile_idem (p : Char → Bool) (l : List Char) :
    (l.dropWhile p).dropWhile p = l.dropWhile p := by
  induction l with
  | nil => rfl
  | cons a t ih =>
      rw [List.dropWhile_cons]
      split
      · exact ih
      · rename_i h
        rw [List.dropWhile_cons, if_neg h]

theorem head_dropWhile_false (p : Char → Bool) (l : List Char) (a : Char)
    (t : List Char) (h : l.dropWhile p = a :: t) : p a = false := by
  induction l with
  | nil => simp at h
  | cons b r ih =>
      rw [List.dropWhile_cons] at h
      split at h
      · exact ih h
      · rename_i hb
        cases h
        exact Bool.not_eq_true _ ▸ eq_false_of_ne_true hb

theorem dropWhile_is_suffix (p : Char → Bool) (l : List Char) :
    ∃ pre, pre ++ l.dropWhile p = l := by
  induction l with
  | nil => exact ⟨[], rfl⟩
  | cons a t ih =>
      rw [List.dropWhile_cons]
      split
      · obtain ⟨pre, hp⟩ := ih
        exact ⟨a :: pre, by rw [List.cons_append, hp]⟩
      · exact ⟨[], rfl⟩

theorem trimChars_idem (d : List Char) : trimChars (trimChars d) = trimChars d := by
  unfold trimChars
  set u := d.dropWhile Char.isWhitespace with hu
  set v := u.reverse.dropWhile Char.isWhitespace with hv
  by_cases hvnil : v = []
  · simp [hvnil]
  · have hvrev : v.reverse ≠ [] := by
      simpa [List.reverse_eq_nil_iff] using hvnil
    obtain ⟨a, t, hat⟩ := List.exists_cons_of_ne_nil hvrev
    obtain ⟨pre, hpre⟩ := dropWhile_is_suffix Char.isWhitespace u.reverse
    rw [← hv] at hpre
    have husplit : u = a :: (t ++ pre.reverse) := by
      have h1 : u.reverse.reverse = (pre ++ v).reverse := by rw [hpre]
      rw [List.reverse_reverse, List.reverse_append, hat] at h1
      simpa using h1
    have ha : Char.isWhitespace a = false := by
      apply head_dropWhile_false Char.isWhitespace d a (t ++ pre.reverse)
      rw [← hu, husplit]
    have hstep1 : v.reverse.dropWhile Char.isWhitespace = v.reverse := by
      rw [hat, List.dropWhile_cons, if_neg (by simp [ha])]
    have hstep3 : v.dropWhile Char.isWhitespace = v := by
      rw [hv]
      exact dropWhile_idem _ _
    rw [hstep1, List.reverse_reverse, hstep3]

theorem jsTrim_idem (s : String) : jsTrim (jsTrim s) = jsTrim s := by
  apply String.ext
  show trimChars (trimChars s.data) = trimChars s.data
  exact trimChars_idem s.data

theorem jsTrim_empty : jsTrim "" = "" := rfl

theorem resolved_title_trimmed (c : Container) :
    jsTrim (resolvedPair c).1 = (resolvedPair c).1 := by
  unfold resolvedPair orDefault
  rcases c.titleLink with _ | tl <;> rcases c.anyJobLink with _ | al <;>
    simp only <;> repeat' split
  all_goals first
    | exact jsTrim_idem _
    | exact jsTrim_empty

theorem normalizeLink_ne_empty (l : String) (h : l ≠ "") : normalizeLink l ≠ "" := by
  unfold normalizeLink
  split
  · exact h
  · intro he
    have hd : ("https://jobs.wordpress.net" ++ l).data = ("" : String).data :=
      congrArg String.data he
    rw [String.data_append] at hd
    have : ("https://jobs.wordpress.net" : String).data = [] :=
      (List.append_eq_nil.mp hd).1
    simp at this

/-! Claim theorems. -/

/-- C1: the Differ (the filter in main, monitor.js line 171) returns exactly
the subsequence of jobs whose id is not a member of the seen set, preserving
the original order of the input: it agrees with the spec-worded differSpec,
is a sublist of its input, its members are exactly the input jobs whose id
the seen set lacks, and it is empty when every id is present.  It is a pure
Lean function, so it has no side effects on either input. -/
theorem C1_differ_exact (jobs : List JobRecord) (seen : SeenSet) :
    differ jobs seen = differSpec jobs seen ∧
    (differ jobs seen).Sublist jobs ∧
    (∀ j, j ∈ differ jobs seen ↔ j ∈ jobs ∧ seenHas seen j.id = false) ∧
    ((∀ j ∈ jobs, seenHas seen j.id = true) → differ jobs seen = []) := by
  refine ⟨?_, List.filter_sublist jobs, ?_, ?_⟩
  · induction jobs with
    | nil => rfl
    | cons j t ih =>
        have hc := contains_iff_mem seen j.id
        by_cases h : j.id ∈ seen
        · have hsh : seenHas seen j.id = true := hc.mpr h
          simp [differ, differSpec, List.filter_cons, hsh, h] at ih ⊢
          exact ih
        · have hsh : seenHas seen j.id = false := by
            rw [← Bool.not_eq_true, seenHas, hc]
            exact h
          simp [differ, differSpec, List.filter_cons, hsh, h] at ih ⊢
          exact ih
  · intro j
    simp [differ, List.mem_filter, Bool.not_eq_true']
  · intro h
    rw [differ, List.filter_eq_nil_iff]
    intro j hj
    simp [Bool.not_eq_true', h j hj]

/-- C1 witness: with the sample record's own id in the seen set, every id is
seen and the Differ returns the empty list. -/
theorem C1_witness :
    (∀ j ∈ [sampleRecord], seenHas [sampleRecord.id] j.id = true) ∧
    differ [sampleRecord] [sampleRecord.id] = [] :=
  ⟨by decide, (C1_differ_exact [sampleRecord] [sampleRecord.id]).2.2.2 (by decide)⟩

/-- C4 counterexample: the container holding an anchor with title "Support
Engineer" and href " " (a single space) is emitted as a JobRecord — JS
treats the non-empty string " " as truthy at monitor.js line 76 — yet its
resolved link trims to the empty string, so the claim that emission requires
both title and link to be non-empty after trimming fails. -/
theorem C4_counterexample :
    (extractContainer spaceLinkContainer).isSome = true ∧
    jsTrim (resolvedPair spaceLinkContainer).2 = "" := by
  constructor
  · decide
  · decide

/-- C4 amended: a JobRecord is emitted for a container exactly when the
resolved title is non-empty after trimming (the resolution itself trims the
title) and the resolved link is a non-empty string as-is — the link is not
trimmed before the check, so whitespace-only links pass; a container for
which either resolution fails yields no JobRecord. -/
theorem C4_emission_guard (c : Container) :
    (extractContainer c).isSome = true ↔
      (jsTrim (resolvedPair c).1 ≠ "" ∧ (resolvedPair c).2 ≠ "") := by
  rw [resolved_title_trimmed]
  by_cases h : (resolvedPair c).1 ≠ "" ∧ (resolvedPair c).2 ≠ "" <;>
    simp [extractContainer, h]

/-- C4 witness: the sample container resolves to a trimmed non-empty title
and a non-empty link, and is emitted. -/
theorem C4_witness :
    (extractContainer sampleContainer).isSome = true ∧
    jsTrim (resolvedPair sampleContainer).1 ≠ "" ∧
    (resolvedPair sampleContainer).2 ≠ "" :=
  ⟨(C4_emission_guard sampleContainer).mpr ⟨by decide, by decide⟩,
    by decide, by decide⟩

/-- C5: link normalization (monitor.js line 77) passes a link through
unchanged when it already starts with the scheme prefix "http", prepends the
fixed site origin otherwise, and in both cases the result starts with
"http". -/
theorem C5_normalizeLink (l : String) :
    (jsStartsWith l "http" = true → normalizeLink l = l) ∧
    (jsStartsWith l "http" = false → normalizeLink l = "https://jobs.wordpress.net" ++ l) ∧
    jsStartsWith (normalizeLink l) "http" = true := by
  refine ⟨?_, ?_, ?_⟩
  · intro h
    simp [normalizeLink, h]
  · intro h
    simp [normalizeLink, h]
  · unfold normalizeLink
    split
    · assumption
    · show ("http".data.isPrefixOf ("https://jobs.wordpress.net" ++ l).data) = true
      rw [List.isPrefixOf_iff_prefix, String.data_append]
      exact List.IsPrefix.trans (List.isPrefixOf_iff_prefix.mp (by decide))
        (List.prefix_append _ _)

/-- C5 witness: the relative link "/job/123" is prepended with the origin;
the absolute link "http://example.org/x" passes through unchanged. -/
theorem C5_witness :
    jsStartsWith "/job/123" "http" = false ∧
    normalizeLink "/job/123" = "https://jobs.wordpress.net/job/123" ∧
    jsStartsWith "http://example.org/x" "http" = true ∧
    normalizeLink "http://example.org/x" = "http://example.org/x" :=
  ⟨by decide, (C5_normalizeLink "/job/123").2.1 (by decide), by decide,
    (C5_normalizeLink "http://example.org/x").1 (by decide)⟩

/-- C8: loadSeenJobs (monitor.js lines 18-25) returns the empty set for a
missing file, an unreadable file, and a file whose contents JSON.parse
rejects; being a total Lean function over all FileState values, it surfaces
no error to the caller. -/
theorem C8_load_errors_empty :
    loadSeenJobs FileState.missing = [] ∧
    loadSeenJobs FileState.unreadable = [] ∧
    loadSeenJobs FileState.invalidJson = [] :=
  ⟨rfl, rfl, rfl⟩

/-- C9: fetchJobs is a deterministic function of the fetched page content:
two runs over identical content produce identical ordered record lists. -/
theorem C9_deterministic (p q : Option (List Container)) (h : p = q) :
    fetchJobs p = fetchJobs q :=
  congrArg fetchJobs h

/-- C9 witness: determinism applied at a concrete page. -/
theorem C9_witness :
    fetchJobs (some [sampleContainer]) = fetchJobs (some [sampleContainer]) :=
  C9_deterministic (some [sampleContainer]) (some [sampleContainer]) rfl

/-- When the Differ finds new jobs, mainRun attempts mail, reports the
transport's outcome, and writes the seen set extended with every new id —
the write is the same expression whether or not mail delivery succeeds. -/
theorem mainRun_write (file : FileState) (fetched : Option (List Container))
    (mailOk : Bool) (h : differ (fetchJobs fetched) (loadSeenJobs file) ≠ []) :
    mainRun file fetched mailOk =
      { mailAttempted := true, mailDelivered := mailOk,
        savedFile := some (saveSeenJobs
          ((differ (fetchJobs fetched) (loadSeenJobs file)).foldl
            (fun s job => seenAdd s job.id) (loadSeenJobs file))) } := by
  have hjobs : fetchJobs fetched ≠ [] := by
    intro he
    apply h
    rw [differ, he]
    rfl
  simp only [mainRun]
  rw [if_neg hjobs, if_neg h]

/-- C2: when the Differ yields a non-empty new-jobs list, the run writes the
same updated seen-set array whether mail delivery fails or succeeds, and
that array contains every id from the new-jobs list. -/
theorem C2_mail_failure_persists (file : FileState) (fetched : Option (List Container))
    (h : differ (fetchJobs fetched) (loadSeenJobs file) ≠ []) :
    (mainRun file fetched false).savedFile = (mainRun file fetched true).savedFile ∧
    ∃ arr, (mainRun file fetched false).savedFile = some arr ∧
      ∀ j ∈ differ (fetchJobs fetched) (loadSeenJobs file), j.id ∈ arr := by
  rw [mainRun_write file fetched false h, mainRun_write file fetched true h]
  refine ⟨rfl, _, rfl, ?_⟩
  intro j hj
  show j.id ∈ (differ (fetchJobs fetched) (loadSeenJobs file)).foldl
    (fun s job => seenAdd s job.id) (loadSeenJobs file)
  rw [mem_foldl_seenAdd_ids]
  exact Or.inr (List.mem_map_of_mem JobRecord.id hj)

/-- C2 witness: a fresh run over the sample page with an empty seen file has
one new job; the failed-mail run and the successful-mail run write the same
array, containing the new id. -/
theorem C2_witness :
    differ (fetchJobs (some [sampleContainer])) (loadSeenJobs FileState.missing) ≠ [] ∧
    ((mainRun FileState.missing (some [sampleContainer]) false).savedFile =
        (mainRun FileState.missing (some [sampleContainer]) true).savedFile ∧
      ∃ arr, (mainRun FileState.missing (some [sampleContainer]) false).savedFile =
          some arr ∧
        ∀ j ∈ differ (fetchJobs (some [sampleContainer])) (loadSeenJobs FileState.missing),
          j.id ∈ arr) :=
  ⟨by decide,
    C2_mail_failure_persists FileState.missing (some [sampleContainer]) (by decide)⟩

/-- C3: a failed fetch is converted into the empty job list by the catch of
monitor.js lines 92-95, and any run whose extraction yields zero records
completes without attempting mail and without writing the seen-jobs file. -/
theorem C3_zero_jobs_untouched (file : FileState) (fetched : Option (List Container))
    (mailOk : Bool) (h : fetchJobs fetched = []) :
    fetchJobs none = [] ∧
    mainRun file fetched mailOk =
      { mailAttempted := false, mailDelivered := false, savedFile := none } := by
  refine ⟨rfl, ?_⟩
  simp only [mainRun]
  rw [if_pos h]

/-- C3 witness: a failed fetch over a non-empty persisted seen set leaves the
file unwritten and sends no mail. -/
theorem C3_witness :
    fetchJobs none = ([] : List JobRecord) ∧
    mainRun (FileState.validArray ["https://jobs.wordpress.net/job/9"]) none true =
      { mailAttempted := false, mailDelivered := false, savedFile := none } :=
  C3_zero_jobs_untouched (FileState.validArray ["https://jobs.wordpress.net/job/9"])
    none true rfl

/-- C6: every JobRecord that survives extraction has id equal to link (both
are the normalized absolute URL of monitor.js lines 77-81) and both fields
are non-empty strings. -/
theorem C6_id_link_invariant (cs : List Container) (r : JobRecord)
    (h : r ∈ extractJobs cs) :
    r.id = r.link ∧ r.id ≠ "" ∧ r.link ≠ "" := by
  rw [extractJobs, List.mem_filterMap] at h
  obtain ⟨c, _, hc⟩ := h
  simp only [extractContainer] at hc
  split at hc
  · rename_i hg
    obtain rfl := Option.some.inj hc
    have hne : normalizeLink (resolvedPair c).2 ≠ "" :=
      normalizeLink_ne_empty _ hg.2
    exact ⟨rfl, hne, hne⟩
  · cases hc

/-- C6 witness: the sample record survives extraction, its id and link agree
and are non-empty. -/
theorem C6_witness :
    sampleRecord ∈ extractJobs [sampleContainer] ∧
    (sampleRecord.id = sampleRecord.link ∧ sampleRecord.id ≠ "" ∧
      sampleRecord.link ≠ "") :=
  ⟨by decide, C6_id_link_invariant [sampleContainer] sampleRecord (by decide)⟩

/-- C7: persisting a seen set with saveSeenJobs and reloading the stored
array with the Set constructor of loadSeenJobs yields identical membership,
and the same holds for any reordering of the stored array. -/
theorem C7_roundtrip (s : SeenSet) :
    (∀ x, x ∈ setFromArray (saveSeenJobs s) ↔ x ∈ s) ∧
    (∀ arr, arr.Perm (saveSeenJobs s) → ∀ x, x ∈ setFromArray arr ↔ x ∈ s) := by
  constructor
  · intro x
    rw [mem_setFromArray]
    exact Iff.rfl
  · intro arr hp x
    rw [mem_setFromArray]
    exact hp.mem_iff

/-- C7 witness: reloading the reversal of the stored array of the two-element
seen set keeps membership. -/
theorem C7_witness :
    (["b", "a"] : List String).Perm (saveSeenJobs ["a", "b"]) ∧
    ("a" ∈ setFromArray ["b", "a"] ↔ "a" ∈ (["a", "b"] : SeenSet)) :=
  ⟨by decide, (C7_roundtrip ["a", "b"]).2 ["b", "a"] (by decide) "a"⟩

/-- C10: whenever a run writes the persisted file, the written array has no
duplicate identifiers: the loaded set is duplicate-free and seenAdd ignores
an id already present, whether it came from disk or from an earlier
duplicate record of the same run. -/
theorem C10_saved_nodup (file : FileState) (fetched : Option (List Container))
    (mailOk : Bool) (arr : List String)
    (h : (mainRun file fetched mailOk).savedFile = some arr) :
    arr.Nodup := by
  by_cases hd : differ (fetchJobs fetched) (loadSeenJobs file) = []
  · have hnone : (mainRun file fetched mailOk).savedFile = none := by
      simp only [mainRun]
      by_cases hj : fetchJobs fetched = []
      · rw [if_pos hj]
      · rw [if_neg hj, if_pos hd]
    rw [hnone] at h
    cases h
  · have h2 : some (saveSeenJobs ((differ (fetchJobs fetched) (loadSeenJobs file)).foldl
        (fun s job => seenAdd s job.id) (loadSeenJobs file))) = some arr := by
      rw [← h, mainRun_write file fetched mailOk hd]
    obtain rfl := Option.some.inj h2
    exact nodup_foldl_seenAdd_ids _ _ (nodup_loadSeenJobs file)

/-- C10 witness: a run over a page listing the same job twice, with that
page's id already extending an existing seen file, still writes a
duplicate-free array. -/
theorem C10_witness :
    (mainRun (FileState.validArray ["x", "x"])
        (some [sampleContainer, sampleContainer]) true).savedFile =
      some ["x", "https://jobs.wordpress.net/job/123"] ∧
    (["x", "https://jobs.wordpress.net/job/123"] : List String).Nodup :=
  ⟨by decide,
    C10_saved_nodup (FileState.validArray ["x", "x"])
      (some [sampleContainer, sampleContainer]) true
      ["x", "https://jobs.wordpress.net/job/123"] (by decide)⟩
